import Mathlib

/-! Shallow embedding of the parallel Cellpose analysis pipeline from
`Day_5/Cellpose_parallel.ipynb`:

* `LazyArray` models the dask array returned by `load_binary_from_s3`:
  a 5-dimensional (TCZYX) array described by its shape and an element
  function, whose data is only touched when a slice is fetched.
* `fetchSlice` models evaluating the slicing expression
  `data[t, :, z, :, :]`: it fetches the 3-dimensional (C,Y,X) sub-array at
  a fixed timepoint `t` and z-section `z`, recording a `fetch` event.
  It follows numpy indexing: a negative `z` with `-zsize ≤ z < 0` wraps
  silently to the plane `zsize + z`, while `z ≥ zsize` or `z < -zsize`
  raises an index error at fetch time, as dask index errors do.
* `analyze` models the notebook function `analyze(z)`: fetch the slice at
  timepoint 0, hand it to the slice operation (`model.eval` in the
  notebook, kept abstract here as `op`), and return the pair
  `(operation output, z)`.
* `build_task_graph` models `build_task_graph(range_z)`: for
  `z` in `range(middle_z - range_z, middle_z + range_z)` with
  `middle_z = data.shape[2] // 2` it records the deferred call
  `dask.delayed(analyze)(z)` and performs no work itself.
* `dask_compute` models `dask.compute(*lazy_results)`: tasks complete in
  an arbitrary completion `order`; the first error observed in completion
  order is raised, otherwise the results are reassembled in submission
  order.

Observable effects (data fetches and invocations of the slice operation)
are made explicit as `Event` traces so that laziness claims can be stated.
-/

/-- A 2/3-dimensional dense slice, indexed by channel, y, x. -/
abbrev Slice (α : Type) := Nat → Nat → Nat → α

/-- The lazily loaded remote array (dimension order TCZYX), as produced by
`load_binary_from_s3`: a shape and an element function; no data is
materialised until a slice is fetched. -/
structure LazyArray (α : Type) where
  shape : List Nat
  el : Nat → Nat → Int → Nat → Nat → α

/-- The z-extent of the array, `data.shape[2]`, as an integer. -/
def zsize {α : Type} (data : LazyArray α) : Int := (data.shape.getD 2 0 : Int)

/-- The middle z-section `data.shape[2] // 2` used by `build_task_graph`. -/
def middle_z {α : Type} (data : LazyArray α) : Int := zsize data / 2

/-- Observable effects of the pipeline: a fetch of the slice at timepoint
`t` and z-section `z` from the lazy array, or an invocation of the slice
operation on the slice at `z`. -/
inductive Event
  | fetch (t : Nat) (z : Int)
  | opCall (z : Int)
deriving DecidableEq, Repr

/-- Errors surfaced by a task: a failed remote fetch (out-of-range index)
or a failure of the slice operation itself. -/
inductive Err
  | fetchError (t : Nat) (z : Int)
  | opError (z : Int) (msg : String)
deriving DecidableEq, Repr

/-- The error of a task outcome, if any. -/
def errOf {ε γ : Type} : Except ε γ → Option ε
  | .error e => some e
  | .ok _ => none

/-- The value of a task outcome, if any. -/
def okOf {ε γ : Type} : Except ε γ → Option γ
  | .ok v => some v
  | .error _ => none

/-- Evaluating `data[t, :, z, :, :]`: fetches the (C,Y,X) slice at
timepoint `t` and z-section `z`, recording one `fetch` event. Indexing
follows numpy semantics: a negative `z` with `-zsize ≤ z < 0` silently
wraps to the plane `zsize + z` and succeeds; only `z ≥ zsize` or
`z < -zsize` fail, with a fetch error raised when the slice is
evaluated. -/
def fetchSlice {α : Type} (data : LazyArray α) (t : Nat) (z : Int) :
    Except Err (Slice α) × List Event :=
  (if 0 ≤ z ∧ z < zsize data then
     .ok (fun c y x => data.el t c z y x)
   else if -zsize data ≤ z ∧ z < 0 then
     .ok (fun c y x => data.el t c (zsize data + z) y x)
   else
     .error (.fetchError t z),
   [Event.fetch t z])

/-- The notebook function `analyze(z)`: fix `t = 0`, fetch `data[t, :, z, :, :]`,
run the slice operation (`model.eval`) on it and return
`(operation output, z)`. The slice operation `op` is the caller-supplied
black box; its failures become `opError`s tagged with `z`. -/
def analyze {α β : Type} (data : LazyArray α) (op : Slice α → Except String β)
    (z : Int) : Except Err (β × Int) × List Event :=
  let t := 0
  match fetchSlice data t z with
  | (.ok s, tr) =>
      (match op s with
       | .ok v => .ok (v, z)
       | .error m => .error (.opError z m),
       tr ++ [Event.opCall z])
  | (.error e, tr) => (.error e, tr)

/-- A deferred task, as produced by `dask.delayed(analyze)(z)`: the
coordinate it will analyse together with the not-yet-evaluated
invocation. Forcing it yields the outcome and the events it performs. -/
structure Delayed (γ : Type) where
  coord : Int
  force : Unit → Except Err γ × List Event

/-- The Python expression `range(a, b)` over integers: `a, a+1, ..., b-1`. -/
def rangeInt (a b : Int) : List Int :=
  (List.range (b - a).toNat).map (fun i : Nat => a + (i : Int))

/-- The notebook function `build_task_graph(range_z)`: for each `z` in
`range(middle_z - range_z, middle_z + range_z)` record the deferred call
`dask.delayed(analyze)(z)`. Building performs no fetch and no invocation
of the slice operation, hence the empty event trace. -/
def build_task_graph {α β : Type} (data : LazyArray α)
    (op : Slice α → Except String β) (range_z : Nat) :
    List (Delayed (β × Int)) × List Event :=
  ((rangeInt (middle_z data - range_z) (middle_z data + range_z)).map
     (fun z => ⟨z, fun _ => analyze data op z⟩),
   [])

/-- Model of `dask.compute(*tasks)`: the scheduler completes the tasks in some
completion `order` (a list of indices into `tasks`). Each completed task
is tagged with its submission index; if any task failed, the first error
in completion order is raised, otherwise the results are reassembled in
submission order, so that the caller sees them indexed like the
submitted tasks. -/
def dask_compute {γ : Type} (order : List Nat) (tasks : List (Delayed γ)) :
    Except Err (List γ) × List Event :=
  let completed := order.filterMap
    (fun i => (tasks.get? i).map (fun t => (i, t.force ())))
  let events := (completed.map (fun p => p.2.2)).flatten
  match (completed.filterMap (fun p => errOf p.2.1)).head? with
  | some e => (.error e, events)
  | none =>
      (.ok ((List.range tasks.length).filterMap
          (fun i => (completed.find? (fun p => p.1 == i)).bind
            (fun p => okOf p.2.1))),
       events)

/-- A deferred task for coordinate `z` running the per-coordinate
computation `g`; `build_task_graph` produces exactly such tasks with
`g = analyze data op`. -/
def mkTask {γ : Type} (g : Int → Except Err γ × List Event) (z : Int) :
    Delayed γ :=
  ⟨z, fun _ => g z⟩


/-- Concrete test array of shape (1,2,10,4,4) whose element at z-section
`z` is `z` itself, so a slice operation can read the coordinate back. -/
def testData : LazyArray Int := ⟨[1, 2, 10, 4, 4], fun _ _ z _ _ => z⟩

/-- Concrete slice operation returning `coordinate * 10`. -/
def testOp : Slice Int → Except String Int := fun s => .ok (s 0 0 0 * 10)

/-- Slice operation that fails exactly on the slice of z-section 5. -/
def failOp : Slice Int → Except String Int :=
  fun s => if s 0 0 0 = 5 then .error "boom" else .ok (s 0 0 0 * 10)

/-! ### Generic executor lemmas -/

lemma build_task_graph_eq_map {α β : Type} (data : LazyArray α)
    (op : Slice α → Except String β) (r : Nat) :
    (build_task_graph data op r).1 =
      (rangeInt (middle_z data - r) (middle_z data + r)).map
        (mkTask (analyze data op)) := rfl

lemma completed_eq {γ : Type} (g : Int → Except Err γ × List Event)
    (coords : List Int) (order : List Nat)
    (h1 : ∀ i ∈ order, i < coords.length) :
    order.filterMap
        (fun i => ((coords.map (mkTask g)).get? i).map (fun t => (i, t.force ()))) =
      order.map (fun i => (i, g (coords.getD i 0))) := by
  induction order with
  | nil => rfl
  | cons j rest ih =>
    have hj : j < coords.length := h1 j (List.mem_cons_self _ _)
    have hget : (coords.map (mkTask g)).get? j = some (mkTask g (coords.getD j 0)) := by
      rw [List.get?_eq_getElem?, List.getElem?_map, List.getElem?_eq_getElem hj]
      simp [List.getD_eq_getElem?_getD, List.getElem?_eq_getElem hj]
    rw [List.filterMap_cons, List.map_cons, hget]
    rw [ih (fun i hi => h1 i (List.mem_cons_of_mem _ hi))]
    rfl

lemma find?_map_pair {A : Type} (f : Nat → A) (order : List Nat) (i : Nat)
    (h : i ∈ order) :
    (order.map (fun j => (j, f j))).find? (fun p => p.1 == i) = some (i, f i) := by
  induction order with
  | nil => exact absurd h (List.not_mem_nil i)
  | cons j rest ih =>
    rw [List.map_cons, List.find?_cons]
    by_cases hji : j = i
    · subst hji; simp
    · have hb : ((j, f j).1 == i) = false := by simp [hji]
      rw [hb]
      exact ih (by
        rcases List.mem_cons.mp h with h' | h'
        · exact absurd h'.symm hji
        · exact h')

lemma filterMap_length_of_isSome {A B : Type} (f : A → Option B) (l : List A)
    (h : ∀ x ∈ l, (f x).isSome) : (l.filterMap f).length = l.length := by
  induction l with
  | nil => rfl
  | cons a tl ih =>
    rcases Option.isSome_iff_exists.mp (h a (List.mem_cons_self _ _)) with ⟨b, hb⟩
    rw [List.filterMap_cons, hb, List.length_cons,
      ih (fun x hx => h x (List.mem_cons_of_mem _ hx))]
    rfl

lemma map_getD_range {B : Type} (coords : List Int) (f : Int → B) :
    (List.range coords.length).map (fun i => f (coords.getD i 0)) = coords.map f := by
  induction coords with
  | nil => rfl
  | cons a tl ih =>
    rw [List.length_cons, List.range_succ_eq_map, List.map_cons, List.map_map]
    simp only [Function.comp_def, List.getD_cons_zero, List.getD_cons_succ]
    rw [ih]
    rfl

lemma getD_mem_of_lt {A : Type} [Inhabited A] (l : List A) (i : Nat) (d : A)
    (h : i < l.length) : l.getD i d ∈ l := by
  rw [List.getD_eq_getElem?_getD, List.getElem?_eq_getElem h]
  exact List.getElem_mem h

/-- Successful run: when the computation of every coordinate succeeds with value
`v z` and the completion order covers exactly the submitted indices, the
executor returns the values reassembled in submission order. -/
theorem dask_compute_ok {γ : Type} (g : Int → Except Err γ × List Event)
    (v : Int → γ) (coords : List Int) (order : List Nat)
    (h1 : ∀ i ∈ order, i < coords.length)
    (h2 : ∀ i, i < coords.length → i ∈ order)
    (hok : ∀ z ∈ coords, (g z).1 = Except.ok (v z)) :
    (dask_compute order (coords.map (mkTask g))).1 =
      Except.ok (coords.map v) := by
  have hmem : ∀ i ∈ order, coords.getD i 0 ∈ coords := fun i hi =>
    getD_mem_of_lt coords i 0 (h1 i hi)
  unfold dask_compute
  rw [completed_eq g coords order h1]
  dsimp only
  rw [List.filterMap_map]
  have herrnil :
      order.filterMap ((fun p => errOf p.2.1) ∘ fun i => (i, g (coords.getD i 0))) = [] := by
    refine List.filterMap_eq_nil_iff.mpr (fun i hi => ?_)
    simp only [Function.comp_def]
    rw [hok _ (hmem i hi)]
    rfl
  rw [herrnil, List.head?_nil]
  rw [List.length_map]
  have hpt : ∀ i ∈ List.range coords.length,
      ((order.map (fun j => (j, g (coords.getD j 0)))).find? (fun p => p.1 == i)).bind
          (fun p => okOf p.2.1) =
        some (v (coords.getD i 0)) := by
    intro i hi
    have hilt : i < coords.length := List.mem_range.mp hi
    rw [find?_map_pair (fun j => g (coords.getD j 0)) order i (h2 i hilt)]
    simp only [Option.some_bind]
    rw [hok _ (getD_mem_of_lt coords i 0 hilt)]
    rfl
  rw [List.filterMap_congr hpt]
  rw [show (fun i => some (v (coords.getD i 0))) = fun i => some ((fun j => v (coords.getD j 0)) i) from rfl]
  rw [List.filterMap_eq_map_iff_forall_eq_some.mpr (fun a _ => rfl)]
  exact congrArg Except.ok (map_getD_range coords v)

lemma head?_eq_of_all {A : Type} (l : List A) (e : A) (hne : l ≠ [])
    (hall : ∀ x ∈ l, x = e) : l.head? = some e := by
  cases l with
  | nil => exact absurd rfl hne
  | cons a tl =>
    rw [List.head?_cons, hall a (List.mem_cons_self _ _)]

/-- Failing run: if the per-coordinate computation fails at a coordinate
`zf` occurring among the submitted coordinates and succeeds everywhere
else, the executor raises exactly that error, whatever the completion
order. -/
theorem dask_compute_error {γ : Type} (g : Int → Except Err γ × List Event)
    (coords : List Int) (order : List Nat) (zf : Int) (e : Err)
    (h1 : ∀ i ∈ order, i < coords.length)
    (h2 : ∀ i, i < coords.length → i ∈ order)
    (hzf : zf ∈ coords)
    (herr : (g zf).1 = Except.error e)
    (hok : ∀ z ∈ coords, z ≠ zf → ∃ w, (g z).1 = Except.ok w) :
    (dask_compute order (coords.map (mkTask g))).1 = Except.error e := by
  unfold dask_compute
  rw [completed_eq g coords order h1]
  dsimp only
  rw [List.filterMap_map]
  have hall : ∀ x ∈ order.filterMap
      ((fun p => errOf p.2.1) ∘ fun i => (i, g (coords.getD i 0))), x = e := by
    intro x hx
    rcases List.mem_filterMap.mp hx with ⟨i, hi, hfx⟩
    simp only [Function.comp_def] at hfx
    by_cases hz : coords.getD i 0 = zf
    · rw [hz, herr] at hfx
      exact (Option.some_inj.mp hfx).symm
    · rcases hok _ (getD_mem_of_lt coords i 0 (h1 i hi)) hz with ⟨w, hw⟩
      rw [hw] at hfx
      exact absurd hfx (by simp [errOf])
  have hne : order.filterMap
      ((fun p => errOf p.2.1) ∘ fun i => (i, g (coords.getD i 0))) ≠ [] := by
    rcases List.mem_iff_getElem.mp hzf with ⟨j, hj, hgj⟩
    have hjD : coords.getD j 0 = zf := by
      rw [List.getD_eq_getElem?_getD, List.getElem?_eq_getElem hj, hgj]
      rfl
    refine List.ne_nil_of_mem (a := e) (List.mem_filterMap.mpr ⟨j, h2 j hj, ?_⟩)
    simp only [Function.comp_def]
    rw [hjD, herr]
    rfl
  rw [head?_eq_of_all _ e hne hall]

/-- The executor never silently drops tasks: a successful run returns as
many results as there were submitted coordinates. -/
theorem dask_compute_ok_length {γ : Type} (g : Int → Except Err γ × List Event)
    (coords : List Int) (order : List Nat) (l : List γ)
    (h1 : ∀ i ∈ order, i < coords.length)
    (h2 : ∀ i, i < coords.length → i ∈ order)
    (hres : (dask_compute order (coords.map (mkTask g))).1 = Except.ok l) :
    l.length = coords.length := by
  unfold dask_compute at hres
  rw [completed_eq g coords order h1] at hres
  dsimp only at hres
  rw [List.filterMap_map] at hres
  cases hhead : (order.filterMap
      ((fun p => errOf p.2.1) ∘ fun i => (i, g (coords.getD i 0)))).head? with
  | some e =>
    rw [hhead] at hres
    exact absurd hres (by simp)
  | none =>
    rw [hhead] at hres
    dsimp only at hres
    have hnil := List.head?_eq_none_iff.mp hhead
    have hnone := List.filterMap_eq_nil_iff.mp hnil
    have hl : (List.range (List.map (mkTask g) coords).length).filterMap
        (fun i => ((order.map (fun j => (j, g (coords.getD j 0)))).find?
            (fun p => p.1 == i)).bind (fun p => okOf p.2.1)) = l := by
      exact (Except.ok.injEq _ _).mp hres
    rw [← hl, List.length_map]
    rw [filterMap_length_of_isSome _ _ ?_, List.length_range]
    intro i hi
    have hilt : i < coords.length := List.mem_range.mp hi
    rw [find?_map_pair (fun j => g (coords.getD j 0)) order i (h2 i hilt)]
    have hno : errOf (g (coords.getD i 0)).1 = none := by
      have := hnone i (h2 i hilt)
      simpa [Function.comp_def] using this
    cases hg : (g (coords.getD i 0)).1 with
    | error e => rw [hg] at hno; exact absurd hno (by simp [errOf])
    | ok w =>
      simp only [Option.some_bind]
      rw [hg]
      rfl

instance {ε γ : Type} [DecidableEq ε] [DecidableEq γ] :
    DecidableEq (Except ε γ) := fun a b =>
  match a, b with
  | .error x, .error y => decidable_of_iff (x = y) (by simp)
  | .ok x, .ok y => decidable_of_iff (x = y) (by simp)
  | .error _, .ok _ => isFalse (fun h => Except.noConfusion h)
  | .ok _, .error _ => isFalse (fun h => Except.noConfusion h)

lemma rangeInt_length (a b : Int) : (rangeInt a b).length = (b - a).toNat := by
  unfold rangeInt
  rw [List.length_map, List.length_range]

lemma mem_rangeInt (a b z : Int) : z ∈ rangeInt a b ↔ a ≤ z ∧ z < b := by
  unfold rangeInt
  simp only [List.mem_map, List.mem_range]
  constructor
  · rintro ⟨i, hi, rfl⟩
    omega
  · rintro ⟨ha, hb⟩
    exact ⟨(z - a).toNat, by omega, by omega⟩

lemma rangeInt_pairwise_lt (a b : Int) : (rangeInt a b).Pairwise (· < ·) := by
  unfold rangeInt
  refine List.pairwise_map.mpr ?_
  refine List.Pairwise.imp ?_ (List.pairwise_lt_range _)
  intro i j hij
  omega

lemma rangeInt_getD (a b : Int) (i : Nat) (h : (i : Int) < b - a) :
    (rangeInt a b).getD i 0 = a + i := by
  unfold rangeInt
  have hlt : i < (b - a).toNat := by omega
  rw [List.getD_eq_getElem?_getD, List.getElem?_map, List.getElem?_range hlt]
  rfl

lemma rangeInt_head? (a b : Int) (h : a < b) : (rangeInt a b).head? = some a := by
  unfold rangeInt
  have hn : (b - a).toNat = (b - a - 1).toNat + 1 := by omega
  rw [hn, List.range_succ_eq_map]
  simp

lemma rangeInt_getLast? (a b : Int) (h : a < b) :
    (rangeInt a b).getLast? = some (b - 1) := by
  unfold rangeInt
  have hn : (b - a).toNat = (b - a - 1).toNat + 1 := by omega
  rw [hn, List.range_succ, List.map_append]
  simp only [List.map_cons, List.map_nil, List.getLast?_concat]
  congr 1
  omega

lemma analyze_eq_of_op_ok {α β : Type} (data : LazyArray α)
    (op : Slice α → Except String β) (z : Int) (v : β)
    (h0 : 0 ≤ z) (h1 : z < zsize data)
    (hop : op (fun c y x => data.el 0 c z y x) = Except.ok v) :
    analyze data op z =
      (Except.ok (v, z), [Event.fetch 0 z, Event.opCall z]) := by
  unfold analyze fetchSlice
  dsimp only
  rw [if_pos (⟨h0, h1⟩ : 0 ≤ z ∧ z < zsize data)]
  dsimp only
  rw [hop]
  rfl

lemma analyze_eq_of_op_error {α β : Type} (data : LazyArray α)
    (op : Slice α → Except String β) (z : Int) (m : String)
    (h0 : 0 ≤ z) (h1 : z < zsize data)
    (hop : op (fun c y x => data.el 0 c z y x) = Except.error m) :
    analyze data op z =
      (Except.error (Err.opError z m), [Event.fetch 0 z, Event.opCall z]) := by
  unfold analyze fetchSlice
  dsimp only
  rw [if_pos (⟨h0, h1⟩ : 0 ≤ z ∧ z < zsize data)]
  dsimp only
  rw [hop]
  rfl

lemma analyze_eq_of_out_of_range {α β : Type} (data : LazyArray α)
    (op : Slice α → Except String β) (z : Int)
    (h : z < -zsize data ∨ zsize data ≤ z) :
    analyze data op z =
      (Except.error (Err.fetchError 0 z), [Event.fetch 0 z]) := by
  have hS : 0 ≤ zsize data := by
    unfold zsize
    exact Int.natCast_nonneg _
  unfold analyze fetchSlice
  dsimp only
  rw [if_neg (by omega : ¬(0 ≤ z ∧ z < zsize data)),
    if_neg (by omega : ¬(-zsize data ≤ z ∧ z < 0))]

lemma fetchSlice_wraps_negative {α : Type} (data : LazyArray α) (z : Int)
    (hlo : -zsize data ≤ z) (hhi : z < 0) :
    (fetchSlice data 0 z).1 =
      Except.ok (fun c y x => data.el 0 c (zsize data + z) y x) := by
  unfold fetchSlice
  rw [if_neg (by omega : ¬(0 ≤ z ∧ z < zsize data)),
    if_pos (⟨hlo, hhi⟩ : -zsize data ≤ z ∧ z < 0)]

lemma build_coords_eq {α β : Type} (data : LazyArray α)
    (op : Slice α → Except String β) (r : Nat) :
    (build_task_graph data op r).1.map Delayed.coord =
      rangeInt (middle_z data - r) (middle_z data + r) := by
  rw [build_task_graph_eq_map, List.map_map]
  simp only [Function.comp_def, mkTask]
  exact List.map_id _

lemma build_length {α β : Type} (data : LazyArray α)
    (op : Slice α → Except String β) (r : Nat) :
    (build_task_graph data op r).1.length = 2 * r := by
  rw [build_task_graph_eq_map, List.length_map, rangeInt_length]
  omega

lemma dask_compute_nil {γ : Type} (order : List Nat) :
    dask_compute order ([] : List (Delayed γ)) = (Except.ok [], []) := by
  unfold dask_compute
  have hc : order.filterMap
      (fun i => (([] : List (Delayed γ)).get? i).map (fun t => (i, t.force ()))) = [] :=
    List.filterMap_eq_nil_iff.mpr (fun i _ => rfl)
  rw [hc]
  rfl

/-! ### Claims -/

/-- C2: for every radius `r ≥ 0` the graph builder produces exactly
`2*r` coordinates, strictly increasing, enumerating precisely the
half-open integer range `[middle_z - r, middle_z + r)` along the z axis,
one task per coordinate and in that order (the i-th coordinate being
`middle_z - r + i`). -/
theorem C2_build_range {α β : Type} (data : LazyArray α)
    (op : Slice α → Except String β) (r : Nat) :
    (build_task_graph data op r).1.map Delayed.coord =
        rangeInt (middle_z data - r) (middle_z data + r)
    ∧ (build_task_graph data op r).1.length = 2 * r
    ∧ ((build_task_graph data op r).1.map Delayed.coord).Pairwise (· < ·)
    ∧ (∀ z : Int, z ∈ (build_task_graph data op r).1.map Delayed.coord ↔
        middle_z data - r ≤ z ∧ z < middle_z data + r)
    ∧ ∀ i : Nat, i < 2 * r →
        ((build_task_graph data op r).1.map Delayed.coord).getD i 0 =
          middle_z data - r + i := by
  refine ⟨build_coords_eq data op r, build_length data op r, ?_, ?_, ?_⟩
  · rw [build_coords_eq]
    exact rangeInt_pairwise_lt _ _
  · intro z
    rw [build_coords_eq]
    exact mem_rangeInt _ _ z
  · intro i hi
    rw [build_coords_eq]
    exact rangeInt_getD _ _ i (by omega)

/-- C3: building the task graph performs no data access and no
invocation of the slice operation: its event trace is empty, and it only
records one deferred invocation per coordinate of the range (the i-th
coordinate of each task being the matching coordinate of the range), before `run`
is invoked. -/
theorem C3_build_performs_no_work {α β : Type} (data : LazyArray α)
    (op : Slice α → Except String β) (r : Nat) :
    (build_task_graph data op r).2 = ([] : List Event)
    ∧ (build_task_graph data op r).1.length =
        (rangeInt (middle_z data - r) (middle_z data + r)).length
    ∧ ∀ i : Nat, ((build_task_graph data op r).1.get? i).map Delayed.coord =
        (rangeInt (middle_z data - r) (middle_z data + r)).get? i := by
  refine ⟨rfl, ?_, ?_⟩
  · rw [build_task_graph_eq_map, List.length_map]
  · intro i
    rw [build_task_graph_eq_map]
    rw [List.get?_eq_getElem?, List.get?_eq_getElem?, List.getElem?_map]
    cases (rangeInt (middle_z data - r) (middle_z data + r))[i]? with
    | none => rfl
    | some z => rfl

/-- C5: with radius 0 the graph builder yields an empty task sequence,
and running that empty sequence (under any completion order) returns an
empty result sequence with an empty event trace, so no fetch of the
underlying array is attempted. -/
theorem C5_radius_zero {α β : Type} (data : LazyArray α)
    (op : Slice α → Except String β) (order : List Nat) :
    build_task_graph data op 0 = (([] : List (Delayed (β × Int))), ([] : List Event))
    ∧ dask_compute order (build_task_graph data op 0).1 =
        (Except.ok ([] : List (β × Int)), ([] : List Event)) := by
  have hco : rangeInt (middle_z data - (0 : Nat)) (middle_z data + (0 : Nat)) = [] := by
    unfold rangeInt
    have h0 : (middle_z data + (0 : Nat) - (middle_z data - (0 : Nat))).toNat = 0 := by
      push_cast
      omega
    rw [h0]
    rfl
  have hbuild : build_task_graph data op 0 =
      (([] : List (Delayed (β × Int))), ([] : List Event)) := by
    unfold build_task_graph
    rw [hco]
    rfl
  refine ⟨hbuild, ?_⟩
  rw [hbuild]
  exact dask_compute_nil order

/-- C10: the center of the coordinate range is not caller-supplied:
`build_task_graph` takes only the radius, the center is always
`middle_z data = data.shape[2] / 2`, and for every positive radius the
first coordinate is `middle_z - r` and the last is `middle_z + r - 1`. -/
theorem C10_center_is_middle {α β : Type} (data : LazyArray α)
    (op : Slice α → Except String β) (r : Nat) (hr : 0 < r) :
    middle_z data = (data.shape.getD 2 0 : Int) / 2
    ∧ ((build_task_graph data op r).1.map Delayed.coord).head? =
        some (middle_z data - r)
    ∧ ((build_task_graph data op r).1.map Delayed.coord).getLast? =
        some (middle_z data + r - 1) := by
  refine ⟨rfl, ?_, ?_⟩
  · rw [build_coords_eq]
    exact rangeInt_head? _ _ (by omega)
  · rw [build_coords_eq]
    rw [rangeInt_getLast? _ _ (by omega)]

/-- C10 witness: on the concrete array of shape (1,2,10,4,4) and
radius 2 the first coordinate is 3 and the last is 6. -/
theorem C10_center_is_middle_witness :
    middle_z testData = (testData.shape.getD 2 0 : Int) / 2
    ∧ ((build_task_graph testData testOp 2).1.map Delayed.coord).head? =
        some (middle_z testData - 2)
    ∧ ((build_task_graph testData testOp 2).1.map Delayed.coord).getLast? =
        some (middle_z testData + 2 - 1) :=
  C10_center_is_middle testData testOp 2 (by decide)

/-- C9: every task analyzes the fixed timepoint 0 and the full channel
range: for every in-range coordinate `z` on which the operation succeeds,
the slice handed to the operation is `data[t=0, all channels, z, :, :]`,
the output of the task is the pair `(operation output, z)`, and every fetch
performed mentions timepoint 0 and coordinate `z`. -/
theorem C9_timepoint_zero_full_channels {α β : Type} (data : LazyArray α)
    (op : Slice α → Except String β) (z : Int) (v : β)
    (h0 : 0 ≤ z) (h1 : z < zsize data)
    (hop : op (fun c y x => data.el 0 c z y x) = Except.ok v) :
    (analyze data op z).1 = Except.ok (v, z)
    ∧ (analyze data op z).2 = [Event.fetch 0 z, Event.opCall z]
    ∧ ∀ t z', Event.fetch t z' ∈ (analyze data op z).2 → t = 0 ∧ z' = z := by
  have h := analyze_eq_of_op_ok data op z v h0 h1 hop
  refine ⟨by rw [h], by rw [h], ?_⟩
  intro t z' hm
  rw [h] at hm
  rcases List.mem_cons.mp hm with he | hm'
  · injection he with ht hz
    exact ⟨ht, hz⟩
  · rcases List.mem_cons.mp hm' with he | hm''
    · exact absurd he (by simp)
    · exact absurd hm'' (List.not_mem_nil _)

/-- C9 witness: on the concrete array, analyzing z-section 4 hands the
operation the slice at timepoint 0 and returns `(40, 4)`. -/
theorem C9_timepoint_zero_full_channels_witness :
    (analyze testData testOp 4).1 = Except.ok (40, 4)
    ∧ (analyze testData testOp 4).2 = [Event.fetch 0 4, Event.opCall 4]
    ∧ ∀ t z', Event.fetch t z' ∈ (analyze testData testOp 4).2 → t = 0 ∧ z' = 4 :=
  C9_timepoint_zero_full_channels testData testOp 4 40 (by decide) (by decide) (by decide)

/-- C8 counterexample: the claim that every coordinate outside the valid
z extent [0, zsize) fails at fetch time is false on the code. With the
shape-(1,2,10,4,4) array and radius 7 the requested range [-2, 12)
exceeds the extent, yet the affected task at coordinate -2 runs
successfully: numpy indexing wraps -2 to plane 8 and the operation
returns (80, -2), so no range error ever manifests for it. -/
theorem C8_counterexample :
    (zsize testData < middle_z testData + 7 ∨ middle_z testData - 7 < 0)
    ∧ ∃ t ∈ (build_task_graph testData testOp 7).1,
        (t.coord < 0 ∨ zsize testData ≤ t.coord) ∧
          (t.force ()).1 = Except.ok ((80 : Int), (-2 : Int)) := by
  refine ⟨by decide, mkTask (analyze testData testOp) (-2), ?_, by decide, by decide⟩
  exact List.mem_map.mpr ⟨-2, by decide, rfl⟩

/-- C8 (amended): out-of-range coordinates are never clamped or validated
at build time: the requested range is never rejected or truncated and no
data is touched. Coordinates at or beyond the z extent (`z ≥ zsize`) or
below `-zsize` fail only at fetch time, in the affected task; negative
coordinates in [-zsize, 0), however, follow numpy indexing and wrap
silently to plane `zsize + z`, so their fetch succeeds with no error at
any stage. When the range overruns the top of the extent, an affected
task exists whose run raises the deferred fetch error. -/
theorem C8_no_clamping_error_deferred {α β : Type} (data : LazyArray α)
    (op : Slice α → Except String β) (r : Nat)
    (_hout : zsize data < middle_z data + r ∨ middle_z data - r < 0) :
    (build_task_graph data op r).1.map Delayed.coord =
        rangeInt (middle_z data - r) (middle_z data + r)
    ∧ (build_task_graph data op r).1.length = 2 * r
    ∧ (build_task_graph data op r).2 = ([] : List Event)
    ∧ (∀ t ∈ (build_task_graph data op r).1,
        (t.coord < -zsize data ∨ zsize data ≤ t.coord) →
          t.force () = (Except.error (Err.fetchError 0 t.coord),
            [Event.fetch 0 t.coord]))
    ∧ (∀ z : Int, -zsize data ≤ z → z < 0 →
        (fetchSlice data 0 z).1 =
          Except.ok (fun c y x => data.el 0 c (zsize data + z) y x))
    ∧ (zsize data < middle_z data + r →
        ∃ t ∈ (build_task_graph data op r).1,
          zsize data ≤ t.coord ∧
            t.force () = (Except.error (Err.fetchError 0 t.coord),
              [Event.fetch 0 t.coord])) := by
  have hS : 0 ≤ zsize data := by
    unfold zsize
    exact Int.natCast_nonneg _
  have hm : 0 ≤ middle_z data ∧ middle_z data ≤ zsize data := by
    unfold middle_z
    omega
  refine ⟨build_coords_eq data op r, build_length data op r, rfl, ?_, ?_, ?_⟩
  · intro t ht hcoord
    rw [build_task_graph_eq_map] at ht
    rcases List.mem_map.mp ht with ⟨z, _, rfl⟩
    show analyze data op z = _
    exact analyze_eq_of_out_of_range data op z (by
      simp only [mkTask] at hcoord
      omega)
  · exact fun z hlo hhi => fetchSlice_wraps_negative data z hlo hhi
  · intro hhi
    rw [build_task_graph_eq_map]
    refine ⟨mkTask (analyze data op) (middle_z data + r - 1),
      List.mem_map.mpr ⟨middle_z data + r - 1, ?_, rfl⟩, ?_, ?_⟩
    · rw [mem_rangeInt]
      omega
    · show zsize data ≤ middle_z data + r - 1
      omega
    · show analyze data op (middle_z data + r - 1) = _
      exact analyze_eq_of_out_of_range data op _ (by omega)

/-- C8 witness: with the shape-(1,2,10,4,4) array and radius 7 the
range [-2, 12) exceeds the z extent 10: the graph is still fully built
with no event, coordinates 10 and 11 fail only when their tasks run,
coordinates -2 and -1 wrap, and an erroring task exists. -/
theorem C8_no_clamping_error_deferred_witness :
    (build_task_graph testData testOp 7).1.map Delayed.coord =
        rangeInt (middle_z testData - 7) (middle_z testData + 7)
    ∧ (build_task_graph testData testOp 7).1.length = 2 * 7
    ∧ (build_task_graph testData testOp 7).2 = ([] : List Event)
    ∧ (∀ t ∈ (build_task_graph testData testOp 7).1,
        (t.coord < -zsize testData ∨ zsize testData ≤ t.coord) →
          t.force () = (Except.error (Err.fetchError 0 t.coord),
            [Event.fetch 0 t.coord]))
    ∧ (∀ z : Int, -zsize testData ≤ z → z < 0 →
        (fetchSlice testData 0 z).1 =
          Except.ok (fun c y x => testData.el 0 c (zsize testData + z) y x))
    ∧ (zsize testData < middle_z testData + 7 →
        ∃ t ∈ (build_task_graph testData testOp 7).1,
          zsize testData ≤ t.coord ∧
            t.force () = (Except.error (Err.fetchError 0 t.coord),
              [Event.fetch 0 t.coord])) :=
  C8_no_clamping_error_deferred testData testOp 7 (by decide)

/-- C1: for every task sequence produced by the graph builder in which
no task fails (in-range coordinates, total slice operation), and every
completion order covering the submitted indices, `dask_compute` returns
exactly as many results as tasks and the coordinate of the i-th result
equals the coordinate of the i-th submitted task: results are reassembled in
submission order regardless of completion order. -/
theorem C1_results_match_submission {α β : Type} (data : LazyArray α)
    (opv : Slice α → β) (r : Nat) (order : List Nat)
    (h1 : ∀ i ∈ order, i < 2 * r)
    (h2 : ∀ i, i < 2 * r → i ∈ order)
    (hbound : ∀ z ∈ rangeInt (middle_z data - r) (middle_z data + r),
      0 ≤ z ∧ z < zsize data) :
    ∃ l, (dask_compute order
        (build_task_graph data (fun s => Except.ok (opv s)) r).1).1 = Except.ok l
      ∧ l.length = (build_task_graph data (fun s => Except.ok (opv s)) r).1.length
      ∧ ∀ i : Nat, (l.get? i).map Prod.snd =
          ((build_task_graph data (fun s => Except.ok (opv s)) r).1.get? i).map
            Delayed.coord := by
  set coords := rangeInt (middle_z data - r) (middle_z data + r) with hcoords
  have hlen : coords.length = 2 * r := by
    rw [hcoords, rangeInt_length]
    omega
  have h1' : ∀ i ∈ order, i < coords.length := by
    intro i hi
    rw [hlen]
    exact h1 i hi
  have h2' : ∀ i, i < coords.length → i ∈ order := by
    intro i hi
    rw [hlen] at hi
    exact h2 i hi
  have hok : ∀ z ∈ coords,
      (analyze data (fun s => Except.ok (opv s)) z).1 =
        Except.ok ((fun w => (opv (fun c y x => data.el 0 c w y x), w)) z) := by
    intro z hz
    rcases hbound z hz with ⟨hz0, hz1⟩
    rw [analyze_eq_of_op_ok data (fun s => Except.ok (opv s)) z
      (opv (fun c y x => data.el 0 c z y x)) hz0 hz1 rfl]
  refine ⟨coords.map (fun w => (opv (fun c y x => data.el 0 c w y x), w)),
    ?_, ?_, ?_⟩
  · rw [build_task_graph_eq_map, ← hcoords]
    exact dask_compute_ok _ _ coords order h1' h2' hok
  · rw [List.length_map, build_task_graph_eq_map, ← hcoords, List.length_map]
  · intro i
    rw [build_task_graph_eq_map, ← hcoords]
    rw [List.get?_eq_getElem?, List.get?_eq_getElem?, List.getElem?_map,
      List.getElem?_map]
    cases coords[i]? with
    | none => rfl
    | some z => rfl

/-- C1 witness: concrete run with completion order [2,0,3,1] on the
shape-(1,2,10,4,4) array with radius 2. -/
theorem C1_results_match_submission_witness :
    ∃ l, (dask_compute [2, 0, 3, 1]
        (build_task_graph testData
          (fun s => Except.ok ((fun t : Slice Int => t 0 0 0 * 10) s)) 2).1).1 =
          Except.ok l
      ∧ l.length = (build_task_graph testData
          (fun s => Except.ok ((fun t : Slice Int => t 0 0 0 * 10) s)) 2).1.length
      ∧ ∀ i : Nat, (l.get? i).map Prod.snd =
          ((build_task_graph testData
            (fun s => Except.ok ((fun t : Slice Int => t 0 0 0 * 10) s)) 2).1.get? i).map
            Delayed.coord :=
  C1_results_match_submission testData (fun t => t 0 0 0 * 10) 2 [2, 0, 3, 1]
    (by decide) (by decide) (by decide)

/-- C4: end-to-end on the shape-(1,2,10,4,4) array with a slice
operation returning `coordinate * 10`: building with center 5
(= 10 // 2) and radius 2 and running under any covering completion order
yields exactly the results [(30,3), (40,4), (50,5), (60,6)] in submission
order. -/
theorem C4_end_to_end (order : List Nat)
    (h1 : ∀ i ∈ order, i < 4) (h2 : ∀ i, i < 4 → i ∈ order) :
    (dask_compute order (build_task_graph testData testOp 2).1).1 =
      Except.ok [((30 : Int), (3 : Int)), (40, 4), (50, 5), (60, 6)] := by
  have hco : rangeInt (middle_z testData - (2 : Nat)) (middle_z testData + (2 : Nat)) =
      [3, 4, 5, 6] := by decide
  have h := dask_compute_ok (analyze testData testOp)
      (fun z => (z * 10, z)) [3, 4, 5, 6] order
      (fun i hi => h1 i hi) (fun i hi => h2 i hi) (by decide)
  rw [build_task_graph_eq_map, hco, h]
  rfl

/-- C4 witness: concrete completion order [1,3,0,2]. -/
theorem C4_end_to_end_witness :
    (dask_compute [1, 3, 0, 2] (build_task_graph testData testOp 2).1).1 =
      Except.ok [((30 : Int), (3 : Int)), (40, 4), (50, 5), (60, 6)] :=
  C4_end_to_end [1, 3, 0, 2] (by decide) (by decide)

/-- C6: idempotence of `run`: two runs of the same built task sequence
against the unchanged array (the slice function of the model is a fixed pure
function, so fetches of the same selector return identical data), under
any two covering completion orders, yield identical result values,
provided the deterministic slice operation succeeds everywhere. -/
theorem C6_run_deterministic {α β : Type} (data : LazyArray α)
    (opv : Slice α → β) (r : Nat) (σ τ : List Nat)
    (hσ1 : ∀ i ∈ σ, i < 2 * r) (hσ2 : ∀ i, i < 2 * r → i ∈ σ)
    (hτ1 : ∀ i ∈ τ, i < 2 * r) (hτ2 : ∀ i, i < 2 * r → i ∈ τ)
    (hbound : ∀ z ∈ rangeInt (middle_z data - r) (middle_z data + r),
      0 ≤ z ∧ z < zsize data) :
    (dask_compute σ (build_task_graph data (fun s => Except.ok (opv s)) r).1).1 =
      (dask_compute τ (build_task_graph data (fun s => Except.ok (opv s)) r).1).1 := by
  set coords := rangeInt (middle_z data - r) (middle_z data + r) with hcoords
  have hlen : coords.length = 2 * r := by
    rw [hcoords, rangeInt_length]
    omega
  have hok : ∀ z ∈ coords,
      (analyze data (fun s => Except.ok (opv s)) z).1 =
        Except.ok ((fun w => (opv (fun c y x => data.el 0 c w y x), w)) z) := by
    intro z hz
    rcases hbound z hz with ⟨hz0, hz1⟩
    rw [analyze_eq_of_op_ok data (fun s => Except.ok (opv s)) z
      (opv (fun c y x => data.el 0 c z y x)) hz0 hz1 rfl]
  rw [build_task_graph_eq_map, ← hcoords]
  rw [dask_compute_ok _ _ coords σ
    (fun i hi => by rw [hlen]; exact hσ1 i hi)
    (fun i hi => hσ2 i (by rw [hlen] at hi; exact hi)) hok]
  rw [dask_compute_ok _ _ coords τ
    (fun i hi => by rw [hlen]; exact hτ1 i hi)
    (fun i hi => hτ2 i (by rw [hlen] at hi; exact hi)) hok]

/-- C6 witness: two different completion orders on the concrete array
give the same result value. -/
theorem C6_run_deterministic_witness :
    (dask_compute [1, 0, 3, 2]
      (build_task_graph testData
        (fun s => Except.ok ((fun t : Slice Int => t 0 0 0 * 10) s)) 2).1).1 =
    (dask_compute [3, 2, 1, 0]
      (build_task_graph testData
        (fun s => Except.ok ((fun t : Slice Int => t 0 0 0 * 10) s)) 2).1).1 :=
  C6_run_deterministic testData (fun t => t 0 0 0 * 10) 2 [1, 0, 3, 2] [3, 2, 1, 0]
    (by decide) (by decide) (by decide) (by decide) (by decide)

/-- C7: failure propagation under the fail-fast policy implemented by
`dask_compute`: if the slice operation of exactly one task raises, the run
surfaces that error (attributed to the failing coordinate) to the caller,
and in general a successful run never returns a result sequence shorter
than the submitted task sequence, so no result is silently lost or
duplicated. -/
theorem C7_single_failure_surfaces {α β : Type} (data : LazyArray α)
    (op : Slice α → Except String β) (r : Nat) (order : List Nat)
    (zf : Int) (m : String)
    (h1 : ∀ i ∈ order, i < 2 * r)
    (h2 : ∀ i, i < 2 * r → i ∈ order)
    (hbound : ∀ z ∈ rangeInt (middle_z data - r) (middle_z data + r),
      0 ≤ z ∧ z < zsize data)
    (hzf : zf ∈ rangeInt (middle_z data - r) (middle_z data + r))
    (herr : op (fun c y x => data.el 0 c zf y x) = Except.error m)
    (hok : ∀ z ∈ rangeInt (middle_z data - r) (middle_z data + r), z ≠ zf →
      errOf (op (fun c y x => data.el 0 c z y x)) = none) :
    (dask_compute order (build_task_graph data op r).1).1 =
      Except.error (Err.opError zf m)
    ∧ ∀ (γ : Type) (g : Int → Except Err γ × List Event) (coords : List Int)
        (order' : List Nat) (l : List γ),
        (∀ i ∈ order', i < coords.length) →
        (∀ i, i < coords.length → i ∈ order') →
        (dask_compute order' (coords.map (mkTask g))).1 = Except.ok l →
        l.length = coords.length := by
  constructor
  · set coords := rangeInt (middle_z data - r) (middle_z data + r) with hcoords
    have hlen : coords.length = 2 * r := by
      rw [hcoords, rangeInt_length]
      omega
    rcases hbound zf hzf with ⟨hzf0, hzf1⟩
    rw [build_task_graph_eq_map, ← hcoords]
    refine dask_compute_error (analyze data op) coords order zf
      (Err.opError zf m)
      (fun i hi => by rw [hlen]; exact h1 i hi)
      (fun i hi => h2 i (by rw [hlen] at hi; exact hi))
      hzf ?_ ?_
    · rw [analyze_eq_of_op_error data op zf m hzf0 hzf1 herr]
    · intro z hz hne
      rcases hbound z hz with ⟨hz0, hz1⟩
      have hnone := hok z hz hne
      cases hopz : op (fun c y x => data.el 0 c z y x) with
      | error e =>
        rw [hopz] at hnone
        exact absurd hnone (by simp [errOf])
      | ok w =>
        exact ⟨(w, z), by rw [analyze_eq_of_op_ok data op z w hz0 hz1 hopz]⟩
  · intro γ g coords order' l h1' h2' hres
    exact dask_compute_ok_length g coords order' l h1' h2' hres

/-- C7 witness: with the slice operation failing exactly at coordinate
5, the run surfaces the operation error attributed to coordinate 5. -/
theorem C7_single_failure_surfaces_witness :
    (dask_compute [0, 1, 2, 3] (build_task_graph testData failOp 2).1).1 =
      Except.error (Err.opError 5 "boom") :=
  (C7_single_failure_surfaces testData failOp 2 [0, 1, 2, 3] 5 "boom"
    (by decide) (by decide) (by decide) (by decide) (by decide) (by decide)).1
